import Mathlib

/-!
# STMViewer: the Gui frame functions (`src/Gui/Gui.cpp`)

A shallow embedding of the data-model side of `Gui.cpp`.  Every ImGui / ImPlot
call that only draws is dropped; every ImGui call whose return value steers the
control flow (a button, `BeginTable`, `IsKeyPressed`, a text buffer) becomes an
explicit input of the embedded function.  Calls whose order or presence matters
(mutex operations, buffer accessors, `writeSeriesValue`, ...) are recorded in an
event trace in program order.

`Variable`, `Plot`, `PlotHandler` and `ScrollingBuffer` are declared in headers
that are not part of the sources; the parts of them that `Gui.cpp` relies on are
modelled from the specification and marked as such.
-/

namespace STMViewer

/-! ## Data model -/

/-- Modelled from the spec: the scalar kinds of `Variable::type` (the header
`Variable.hpp` is missing from the sources). -/
inductive VarType where
  | U8 | I8 | U16 | I16 | U32 | I32 | F32
  deriving DecidableEq, Repr

/-- Modelled from the spec: a `Variable` (the header `Variable.hpp` is missing):
name, target address, scalar kind and colour. -/
structure Variable where
  name : String
  address : Nat
  type : VarType
  color : Nat
  deriving DecidableEq, Repr

/-- The address of a `Variable` object.  `Gui::vars` holds
`std::shared_ptr<Variable>` and a `Plot::Series` holds a pointer to the same
object (`serPtr->var->getName()`), so variables live in a heap and are
referred to by index. -/
abbrev VarId := Nat

/-- Sample values (`float` in the source); no arithmetic is done on them here. -/
abbrev Sample := Int

/-- Enumeration `state` with the two values `Gui.cpp` uses
(`state::STOP`, `state::RUN`); `Gui::state` and `PlotHandler::state` are cast
into each other by the source and are identified here. -/
inductive state where
  | STOP | RUN
  deriving DecidableEq, Repr

/-- `Plot::type_E` with the three values `Gui.cpp` uses. -/
inductive type_E where
  | CURVE | BAR | TABLE
  deriving DecidableEq, Repr

/-! ## `std::map<std::string, T>` -/

/-- A `std::map<std::string, T>`, as the list of its entries in iteration
(key) order. -/
abbrev StdMap (β : Type) := List (String × β)

/-- `std::less<std::string>`: lexicographic comparison of the characters. -/
def keyLess (a b : String) : Bool := decide (a.toList < b.toList)

namespace StdMap

variable {β : Type}

/-- `m.find(k)`, `none` standing for `m.end()`. -/
def find (m : StdMap β) (k : String) : Option β :=
  (List.find? (fun e => e.1 == k) m).map Prod.snd

/-- `m.find(k) != m.end()`. -/
def contains (m : StdMap β) (k : String) : Bool :=
  (m.find k).isSome

/-- `m.erase(k)`: drops the entry keyed `k`, if any. -/
def erase (m : StdMap β) (k : String) : StdMap β :=
  List.filter (fun e => e.1 != k) m

/-- `m.insert(node)` / `m.emplace(k, v)`: when the key is already present the
map is left as it is (and a node passed in is destroyed); otherwise the entry
goes to its place in key order. -/
def insert (m : StdMap β) (k : String) (v : β) : StdMap β :=
  if m.contains k then m
  else List.filter (fun e => keyLess e.1 k) m ++ (k, v) :: List.filter (fun e => keyLess k e.1) m

/-- The keys in iteration order. -/
def keys (m : StdMap β) : List String :=
  m.map Prod.fst

end StdMap

/-! ## `ScrollingBuffer`, `Plot`, `PlotHandler` -/

/-- Modelled from the spec: `ScrollingBuffer<float>` (the header
`ScrollingBuffer.hpp` is missing): fixed capacity, storage, next write slot
and number of samples held. -/
structure ScrollingBuffer where
  capacity : Nat
  storage : List Sample
  writeIndex : Nat
  filledCount : Nat
  deriving DecidableEq, Repr

namespace ScrollingBuffer

/-- Modelled from the spec: a fresh buffer of the given capacity holds no
sample. -/
def fresh (capacity : Nat) : ScrollingBuffer :=
  { capacity := capacity, storage := List.replicate capacity 0, writeIndex := 0, filledCount := 0 }

/-- Modelled from the spec: `push(value)` writes into `storage[writeIndex]`,
advances `writeIndex` modulo the capacity and increments `filledCount` up to
the capacity. -/
def push (b : ScrollingBuffer) (value : Sample) : ScrollingBuffer :=
  { b with
    storage := b.storage.set b.writeIndex value
    writeIndex := (b.writeIndex + 1) % b.capacity
    filledCount := min (b.filledCount + 1) b.capacity }

/-- Modelled from the spec: `clear()` resets `writeIndex` and `filledCount`
and keeps the storage. -/
def clear (b : ScrollingBuffer) : ScrollingBuffer :=
  { b with writeIndex := 0, filledCount := 0 }

/-- Modelled from the spec: `lastElement() -> T | empty`, the most recently
pushed value, or "no data" when `filledCount == 0`. -/
def getLastElement (b : ScrollingBuffer) : Option Sample :=
  if b.filledCount = 0 then none
  else b.storage.get? ((b.writeIndex + b.capacity - 1) % b.capacity)

end ScrollingBuffer

/-- `Plot::Series`: the pointer to the variable and the series' own buffer. -/
structure Series where
  var : VarId
  buffer : ScrollingBuffer
  deriving DecidableEq, Repr

/-- Modelled from the spec: a `Plot` (the header `Plot.hpp` is missing): name,
kind, visibility, the time buffer and the series map keyed by variable name. -/
structure Plot where
  name : String
  type : type_E
  visible : Bool
  time : ScrollingBuffer
  seriesMap : StdMap Series
  deriving DecidableEq, Repr

namespace Plot

/-- Modelled from the spec: the capacity given to the buffer of a new series
(the plot's configured capacity, taken to be that of its time buffer). -/
def seriesCapacity (p : Plot) : Nat := p.time.capacity

/-- Modelled from the spec: `removeSeries(name)` removes the Series for `name`
and is a no-op if there is none. -/
def removeSeries (p : Plot) (name : String) : Plot :=
  { p with seriesMap := p.seriesMap.erase name }

/-- Modelled from the spec: `addSeries(variable)` inserts the Series keyed by
the variable's name with a fresh buffer; a Series of the same variable that
is already there keeps its history, a Series of a different variable under
that name is replaced. -/
def addSeries (p : Plot) (v : VarId) (name : String) : Plot :=
  match p.seriesMap.find name with
  | some s =>
    if s.var = v then p
    else { p with seriesMap :=
            (p.seriesMap.erase name).insert name ⟨v, ScrollingBuffer.fresh p.seriesCapacity⟩ }
  | none =>
    { p with seriesMap := p.seriesMap.insert name ⟨v, ScrollingBuffer.fresh p.seriesCapacity⟩ }

/-- Modelled from the spec: `setType(kind)` changes the kind only. -/
def setType (p : Plot) (t : type_E) : Plot := { p with type := t }

/-- Modelled from the spec: erasing the plot's data clears the time buffer and
every series buffer. -/
def eraseData (p : Plot) : Plot :=
  { p with
    time := p.time.clear
    seriesMap := p.seriesMap.map (fun e => (e.1, { e.2 with buffer := e.2.buffer.clear })) }

end Plot

/-- Modelled from the spec: the `PlotHandler` (the header `PlotHandler.hpp` is
missing): the plots in iteration order and the acquisition state. -/
structure PlotHandler where
  plots : List Plot
  viewerState : state
  deriving DecidableEq, Repr

namespace PlotHandler

/-- Modelled from the spec: `eraseAllPlotData` clears all buffers. -/
def eraseAllPlotData (h : PlotHandler) : PlotHandler :=
  { h with plots := h.plots.map Plot.eraseData }

/-- Modelled from the spec: `setViewerState` is the state transition. -/
def setViewerState (h : PlotHandler) (s : state) : PlotHandler :=
  { h with viewerState := s }

/-- Modelled from the spec: `getViewerState`, used by `Gui.cpp` as a
condition: true exactly in the state Running. -/
def getViewerState (h : PlotHandler) : Bool :=
  decide (h.viewerState = state.RUN)

/-- Modelled from the spec: `visiblePlotCount`, the count of Plots with
`visible == true`, as the 32-bit unsigned value `mainThread` uses. -/
def getVisiblePlotsCount (h : PlotHandler) : Nat :=
  (h.plots.filter (fun p => p.visible)).length % 2 ^ 32

end PlotHandler

/-- The data-model part of the `Gui` object: the variable heap, the registry
`vars`, the plot handler and the Gui's own `viewerState`. -/
structure Gui where
  heap : List Variable
  vars : StdMap VarId
  plotHandler : PlotHandler
  viewerState : state
  deriving DecidableEq, Repr

/-- `var->getName()` for the object at address `v`. -/
def getName (heap : List Variable) (v : VarId) : Option String :=
  (heap.get? v).map (fun x => x.name)

/-- `var->setName(name)` for the object at address `v`. -/
def setName (heap : List Variable) (v : VarId) (name : String) : List Variable :=
  heap.modify (fun x => { x with name := name }) v

/-! ## Event traces -/

/-- The buffers of the plot being rendered. -/
inductive Buf where
  | time
  | series (key : String)
  deriving DecidableEq, Repr

/-- The calls recorded in a trace. -/
inductive Event where
  | eraseAllPlotData
  | setViewerState (s : state)
  | lock
  | unlock
  | copyData (b : Buf)
  | getOffset (b : Buf)
  | getSize (b : Buf)
  | getLastElement (b : Buf)
  | deref (b : Buf) (value : Option Sample)
  | getFirstElementCopy (b : Buf)
  | plotLine (key : String)
  | plotBars (key : String)
  | writeSeriesValue (var : VarId) (text : String)
  deriving DecidableEq, Repr

/-! ## `Gui::drawStartButton` -/

/-- `Gui::drawStartButton`; `pressed` is the result of `ImGui::Button`. -/
def drawStartButton (pressed : Bool) (g : Gui) : Gui × List Event :=
  if pressed then
    if g.viewerState = state.STOP then
      ({ g with
          viewerState := state.RUN
          plotHandler := (g.plotHandler.eraseAllPlotData).setViewerState state.RUN },
        [Event.eraseAllPlotData, Event.setViewerState state.RUN])
    else
      ({ g with
          plotHandler := g.plotHandler.setViewerState state.STOP
          viewerState := state.STOP },
        [Event.setViewerState state.STOP])
  else (g, [])

/-! ## `Gui::drawAddVariableButton` -/

/-- The name tried by the loop of `drawAddVariableButton`:
`std::string("new") + std::to_string(num)`. -/
def newVarName (num : Nat) : String := "new" ++ toString num

/-- The `while` loop of `drawAddVariableButton` on the `uint32_t` counter
`num`; `none` when the fuel runs out. -/
def findFreeNum (vars : StdMap VarId) : Nat → Nat → Option Nat
  | 0, _ => none
  | fuel + 1, num =>
    if vars.contains (newVarName num) then findFreeNum vars fuel ((num + 1) % 2 ^ 32)
    else some num

/-- The macro `UINT32_MAX`. -/
def UINT32_MAX : Nat := 2 ^ 32 - 1

/-- Conversion of an unsigned 32-bit value to `int` (two's complement). -/
def toInt32 (n : Nat) : Int :=
  if n % 2 ^ 32 < 2 ^ 31 then (n % 2 ^ 32 : Nat) else ((n % 2 ^ 32 : Nat) : Int) - 2 ^ 32

/-- `static_cast<uint32_t>(i)` for an `int`. -/
def toUInt32 (i : Int) : Nat := (i % 2 ^ 32).toNat

/-- `std::uniform_int_distribution<int> dist(a, b); dist(gen)`, the generator
output being `random`.  The distribution requires `a <= b` and then returns a
value of `[a, b]`; `none` when the requirement is violated: the behaviour is
undefined, and the libstdc++ implementation does not return from the call. -/
def uniformIntDistribution (a b : Int) (random : Nat) : Option Int :=
  if a ≤ b then some (a + (random % (b - a + 1).toNat : Nat)) else none

/-- Lines 264-266 and 270-271 of `drawAddVariableButton`: the new `Variable`
with its address, type and colour, allocated at the end of the heap, and
`vars.emplace(newName, newVar)`. -/
def emplaceNewVariable (newName : String) (color : Nat) (g : Gui) : Gui :=
  let newVar : Variable :=
    { name := newName, address := 0x20000000, type := VarType.U8, color := color }
  { g with heap := g.heap ++ [newVar], vars := g.vars.insert newName g.heap.length }

/-- `Gui::drawAddVariableButton`; `pressed` is the result of `ImGui::Button`,
`random` the output of the generator `gen`.  The colour is drawn by
`std::uniform_int_distribution<> dist(0, UINT32_MAX)`, whose bounds are `int`.
`none` when the fuel of the loop runs out or the draw has no result. -/
def drawAddVariableButton (fuel : Nat) (pressed : Bool) (random : Nat) (g : Gui) : Option Gui :=
  if pressed then
    match findFreeNum g.vars fuel 0 with
    | none => none
    | some num =>
      let newName := newVarName num
      match uniformIntDistribution 0 (toInt32 UINT32_MAX) random with
      | none => none
      | some color => some (emplaceNewVariable newName (toUInt32 color) g)
  else some g

/-! ## `Gui::showDeletePopup` -/

/-- `Gui::showDeletePopup(text, name)`; `popupOpen` is the result of
`ImGui::BeginPopupContextItem`, `button` that of `ImGui::Button(text)`. -/
def showDeletePopup (popupOpen button : Bool) (name : String) : String :=
  let nameToDelete := ""
  if popupOpen then
    if button then name else nameToDelete
  else nameToDelete

/-! ## `Gui::drawVarTable` -/

/-- What ImGui reports to `drawVarTable` in one frame.  A row is identified by
the label of its `SelectableInput`, the variable's name. -/
structure VarTableUi where
  /-- Result of `ImGui::BeginTable`. -/
  beginTable : Bool
  /-- Content of the buffer `variable` after `ImGui::SelectableInput`, by label
  (the buffer holds the name before the call). -/
  selectableInput : String → String
  /-- `IsKeyPressed(ImGuiKey_Enter) || IsKeyPressed(ImGuiKey_KeypadEnter)`. -/
  enterPressed : Bool
  /-- Result of `BeginPopupContextItem` for the row's item, by label. -/
  popupOpen : String → Bool
  /-- Result of `Button("Delete")` in the row's popup, by label. -/
  deleteButton : String → Bool

/-- The variables the loop of `drawVarTable` works on. -/
structure VarTableState where
  heap : List Variable
  vars : StdMap VarId
  varNameToDelete : String
  deriving DecidableEq, Repr

/-- Lines 307-310 of `drawVarTable`, for the row whose variable is the object
`v` and whose buffer `variable` holds `newText`: `vars.extract(var->getName())`, the
node's key set to the buffer, `var->setName`, `vars.insert(node)`.
`none` when `extract` finds nothing (the key of an empty node handle is then
assigned). -/
def renameVariable (heap : List Variable) (vars : StdMap VarId) (v : VarId)
    (newText : String) : Option (List Variable × StdMap VarId) :=
  match getName heap v with
  | none => none
  | some name =>
    match vars.find name with
    | none => none
    | some w => some (setName heap v newText, (vars.erase name).insert newText w)

/-- One pass through the body of the `for` loop of `drawVarTable`, the
iterator standing on the node keyed `keyName`.  Returns the state and the key
of the node the iterator stands on afterwards (the node keeps its place in
memory and changes its key when it is renamed).  `none` when the current node
has been destroyed by a failed `insert`, which leaves the iterator and the
references `keyName`, `var` dangling. -/
def drawVarTableRow (ui : VarTableUi) (keyName : String) (s : VarTableState) :
    Option (VarTableState × String) :=
  match s.vars.find keyName with
  | none => none
  | some v =>
    match getName s.heap v with
    | none => none
    | some name =>
      let newText := ui.selectableInput name
      let renamed : Option (List Variable × StdMap VarId × String) :=
        if ui.enterPressed then
          match renameVariable s.heap s.vars v newText with
          | none => none
          | some (heap1, vars1) =>
            if name = keyName then
              if (s.vars.erase name).contains newText then none
              else some (heap1, vars1, newText)
            else some (heap1, vars1, keyName)
        else some (s.heap, s.vars, keyName)
      match renamed with
      | none => none
      | some (heap1, vars1, keyName1) =>
        let varNameToDelete :=
          if showDeletePopup (ui.popupOpen name) (ui.deleteButton name) keyName1 == keyName1
          then keyName1 else s.varNameToDelete
        some (⟨heap1, vars1, varNameToDelete⟩, keyName1)

/-- What ImGui reports for one plot tab of `drawPlotsTree`. -/
structure PlotTabUi where
  /-- Result of `ImGui::BeginTabItem`. -/
  beginTabItem : Bool
  /-- `BeginPopupContextItem` / `Button("Delete plot")` of the tab. -/
  plotPopupOpen : Bool
  plotDeleteButton : Bool
  /-- Content of `newName` after `ImGui::InputText`. -/
  inputText : String
  /-- Value of `typeCombo` after `ImGui::Combo`. -/
  typeCombo : type_E
  /-- Value of the visibility flag after `ImGui::Checkbox`. -/
  checkbox : Bool
  /-- Result of `ImGui::BeginListBox`. -/
  beginListBox : Bool
  /-- `BeginPopupContextItem` / `Button("Delete var")` of a series row, by the
  label of its `Selectable`. -/
  seriesPopupOpen : String → Bool
  seriesDeleteButton : String → Bool

/-- The loop of lines 391-397: the value of `seriesNameToDelete` after it. -/
def seriesNameToDelete (ui : PlotTabUi) (seriesMap : StdMap Series) : String :=
  seriesMap.foldl
    (fun acc e =>
      if showDeletePopup (ui.seriesPopupOpen e.1) (ui.seriesDeleteButton e.1) e.1 == e.1
      then e.1 else acc)
    ""

/-- Lines 388-400 of `drawPlotsTree`: the list box of one plot. -/
def drawPlotsTreeListBox (ui : PlotTabUi) (plt : Plot) : Plot :=
  if ui.beginListBox then plt.removeSeries (seriesNameToDelete ui plt.seriesMap)
  else plt

/-- Result of the body of the loop of `drawPlotsTree` for one plot. -/
structure PlotTabResult where
  plot : Plot
  /-- `newName` at line 408. -/
  newName : String
  /-- The name assigned to `plotNameToDelete` at line 372, if it is. -/
  plotNameToDelete : Option String
  deriving DecidableEq, Repr

/-- Lines 363-406 of `drawPlotsTree` for the plot `plt`. -/
def drawPlotsTreeTab (ui : PlotTabUi) (plt : Plot) : PlotTabResult :=
  if ui.beginTabItem then
    let toDelete :=
      if showDeletePopup ui.plotPopupOpen ui.plotDeleteButton plt.name == plt.name
      then some plt.name else none
    let plt1 := { plt with visible := ui.checkbox }
    let plt2 := drawPlotsTreeListBox ui plt1
    let plt3 := if ui.typeCombo ≠ plt2.type then plt2.setType ui.typeCombo else plt2
    ⟨plt3, ui.inputText, toDelete⟩
  else ⟨plt, plt.name, none⟩

/-! ## `Gui::drawPlotCurveBar` and `Gui::drawPlotTable` -/

/-- `plot->addSeries(*vars[name])` for an accepted drag-and-drop payload
`name`.  `none` when `vars[name]` is a null pointer (`operator[]` creates the
entry) that is then dereferenced. -/
def addDroppedSeries (heap : List Variable) (vars : StdMap VarId) (plot : Plot)
    (name : String) : Option Plot :=
  match vars.find name with
  | none => none
  | some v =>
    match getName heap v with
    | none => none
    | some n => some (plot.addSeries v n)

/-- What ImGui / ImPlot report for one Curve or Bar plot. -/
structure PlotUi where
  /-- Result of `ImPlot::BeginPlot`. -/
  beginPlot : Bool
  /-- Result of `ImPlot::BeginDragDropTargetPlot`. -/
  dragDropTarget : Bool
  /-- Name carried by the payload `AcceptDragDropPayload` returns, if any. -/
  payload : Option String

/-- Result of a render function: the trace, the plot afterwards (`none` after
a null dereference) and whether the function left at its first `return`. -/
structure RenderResult where
  trace : List Event
  plot : Option Plot
  returnedEarly : Bool
  deriving DecidableEq, Repr

/-- The drag-and-drop block of the render functions. -/
def dragDrop (heap : List Variable) (vars : StdMap VarId) (target : Bool)
    (payload : Option String) (plot : Plot) : Option Plot :=
  if target then
    match payload with
    | some name => addDroppedSeries heap vars plot name
    | none => some plot
  else some plot

/-- Lines 478-492: the snapshot under the mutex and the plotting of a Curve
plot. -/
def curveTrace (seriesMap : StdMap Series) : List Event :=
  [Event.lock, Event.copyData Buf.time]
    ++ seriesMap.map (fun e => Event.copyData (Buf.series e.1))
    ++ [Event.getOffset Buf.time, Event.getSize Buf.time, Event.unlock]
    ++ seriesMap.flatMap (fun e =>
        [Event.getFirstElementCopy Buf.time, Event.getFirstElementCopy (Buf.series e.1),
         Event.plotLine e.1])

/-- Lines 527-537: the bars of a Bar plot. -/
def barTrace (seriesMap : StdMap Series) : List Event :=
  seriesMap.flatMap (fun e =>
    [Event.getLastElement (Buf.series e.1),
     Event.deref (Buf.series e.1) e.2.buffer.getLastElement,
     Event.plotBars e.1])

/-- `Gui::drawPlotCurveBar`. -/
def drawPlotCurveBar (ui : PlotUi) (heap : List Variable) (vars : StdMap VarId)
    (plot : Plot) : RenderResult :=
  if !plot.visible then ⟨[], some plot, true⟩
  else if plot.type = type_E.CURVE then
    if ui.beginPlot then
      match dragDrop heap vars ui.dragDropTarget ui.payload plot with
      | none => ⟨[], none, false⟩
      | some plot1 => ⟨curveTrace plot1.seriesMap, some plot1, false⟩
    else ⟨[], some plot, false⟩
  else if plot.type = type_E.BAR then
    if ui.beginPlot then
      match dragDrop heap vars ui.dragDropTarget ui.payload plot with
      | none => ⟨[], none, false⟩
      | some plot1 => ⟨barTrace plot1.seriesMap, some plot1, false⟩
    else ⟨[], some plot, false⟩
  else ⟨[], some plot, false⟩

/-- What ImGui reports for one Table plot. -/
structure TableUi where
  /-- Result of `ImGui::BeginTable`. -/
  beginTable : Bool
  /-- Result of `ImGui::SelectableInput` and content of `newValue` after it, by
  label (the series key). -/
  selectableInput : String → Bool × String
  /-- `IsKeyPressed(ImGuiKey_Enter) || IsKeyPressed(ImGuiKey_KeypadEnter)`. -/
  enterPressed : Bool
  /-- Result of `ImGui::BeginDragDropTarget`. -/
  dragDropTarget : Bool
  /-- Name carried by the payload `AcceptDragDropPayload` returns, if any. -/
  payload : Option String

/-- The body of the loop of lines 559-587 for one series. -/
def tableRowTrace (ui : TableUi) (running : Bool) (e : String × Series) : List Event :=
  [Event.getLastElement (Buf.series e.1), Event.deref (Buf.series e.1) e.2.buffer.getLastElement]
    ++ (if (ui.selectableInput e.1).1 then
          if !running then []
          else if ui.enterPressed then [Event.writeSeriesValue e.2.var (ui.selectableInput e.1).2]
          else []
        else [])

/-- `Gui::drawPlotTable`; `running` is `plotHandler->getViewerState()`. -/
def drawPlotTable (ui : TableUi) (heap : List Variable) (vars : StdMap VarId)
    (running : Bool) (plot : Plot) : RenderResult :=
  if !plot.visible then ⟨[], some plot, true⟩
  else if ui.beginTable then
    ⟨plot.seriesMap.flatMap (tableRowTrace ui running),
     dragDrop heap vars ui.dragDropTarget ui.payload plot, false⟩
  else ⟨[], some plot, false⟩

/-! ## The plot section of `Gui::mainThread` (lines 91-112) -/

/-- What ImGui / ImPlot report to the plot section of one frame; the per-plot
inputs are given by plot name. -/
structure FrameUi where
  table : String → TableUi
  /-- Result of `ImPlot::BeginSubplots`. -/
  beginSubplots : Bool
  plot : String → PlotUi

/-- The loop of lines 93-101, the counter `tablePlots` being a `uint32_t`.
Returns the plots, the counter and the trace. -/
def drawTables (ui : FrameUi) (heap : List Variable) (vars : StdMap VarId) (running : Bool) :
    List Plot → Nat → Option (List Plot × Nat × List Event)
  | [], tablePlots => some ([], tablePlots, [])
  | plt :: rest, tablePlots =>
    if plt.type = type_E.TABLE then
      let r := drawPlotTable (ui.table plt.name) heap vars running plt
      match r.plot with
      | none => none
      | some plt1 =>
        let tablePlots1 := if plt1.visible then (tablePlots + 1) % 2 ^ 32 else tablePlots
        match drawTables ui heap vars running rest tablePlots1 with
        | none => none
        | some (rest1, n, tr) => some (plt1 :: rest1, n, r.trace ++ tr)
    else
      match drawTables ui heap vars running rest tablePlots with
      | none => none
      | some (rest1, n, tr) => some (plt :: rest1, n, tr)

/-- The loop of lines 108-110.  Returns the plots, the number of calls of
`drawPlotCurveBar` that did not return early, and the trace. -/
def drawCurveBars (ui : FrameUi) (heap : List Variable) (vars : StdMap VarId) :
    List Plot → Option (List Plot × Nat × List Event)
  | [] => some ([], 0, [])
  | plt :: rest =>
    if plt.type = type_E.CURVE ∨ plt.type = type_E.BAR then
      let r := drawPlotCurveBar (ui.plot plt.name) heap vars plt
      match r.plot with
      | none => none
      | some plt1 =>
        match drawCurveBars ui heap vars rest with
        | none => none
        | some (rest1, n, tr) =>
          some (plt1 :: rest1, (if r.returnedEarly then n else n + 1), r.trace ++ tr)
    else
      match drawCurveBars ui heap vars rest with
      | none => none
      | some (rest1, n, tr) => some (plt :: rest1, n, tr)

/-- What the plot section of a frame computes. -/
structure PlotsFrame where
  plots : List Plot
  tablePlots : Nat
  visiblePlotsCount : Nat
  curveBarPlotsCnt : Nat
  row : Nat
  /-- Number of plots drawn inside the subplot grid. -/
  drawn : Nat
  trace : List Event
  deriving DecidableEq, Repr

/-- Lines 91-112 of `Gui::mainThread`; the subtraction is that of two
`uint32_t`.  `none` after a null dereference in a render function. -/
def mainThreadPlots (ui : FrameUi) (g : Gui) : Option PlotsFrame :=
  match drawTables ui g.heap g.vars g.plotHandler.getViewerState g.plotHandler.plots 0 with
  | none => none
  | some (plots1, tablePlots, tr1) =>
    let visiblePlotsCount := PlotHandler.getVisiblePlotsCount { g.plotHandler with plots := plots1 }
    let curveBarPlotsCnt := (visiblePlotsCount + 2 ^ 32 - tablePlots) % 2 ^ 32
    let row := if curveBarPlotsCnt > 0 then curveBarPlotsCnt else 1
    if ui.beginSubplots then
      match drawCurveBars ui g.heap g.vars plots1 with
      | none => none
      | some (plots2, drawn, tr2) =>
        some ⟨plots2, tablePlots, visiblePlotsCount, curveBarPlotsCnt, row, drawn, tr1 ++ tr2⟩
    else some ⟨plots1, tablePlots, visiblePlotsCount, curveBarPlotsCnt, row, 0, tr1⟩

/-! ## Trace properties -/

/-- Whether an event reads live state of a buffer. -/
def Event.isLiveRead : Event → Bool
  | Event.copyData _ => true
  | Event.getOffset _ => true
  | Event.getSize _ => true
  | Event.getLastElement _ => true
  | _ => false

/-- Whether an event is a plotting call. -/
def Event.isPlotting : Event → Bool
  | Event.plotLine _ => true
  | Event.plotBars _ => true
  | _ => false

/-- The lock discipline of a trace, `held` telling whether the mutex is held
at its start: the mutex is acquired only when free and released only when
held, every live read happens while it is held, every plotting call while it
is free, and it is free at the end. -/
def lockDiscipline : Bool → List Event → Bool
  | held, [] => !held
  | held, Event.lock :: rest => !held && lockDiscipline true rest
  | held, Event.unlock :: rest => held && lockDiscipline false rest
  | held, e :: rest =>
    (if e.isLiveRead then held else true) && (if e.isPlotting then !held else true)
      && lockDiscipline held rest

/-- The `writeSeriesValue` calls of a trace. -/
def writeBacks (tr : List Event) : List (VarId × String) :=
  tr.filterMap (fun e => match e with
    | Event.writeSeriesValue v t => some (v, t)
    | _ => none)

/-- The dereferenced results of `getLastElement` in a trace. -/
def derefs (tr : List Event) : List (Buf × Option Sample) :=
  tr.filterMap (fun e => match e with
    | Event.deref b v => some (b, v)
    | _ => none)

/-! ## Counting predicates -/

/-- Visible plots of kind Table. -/
def isVisibleTable (p : Plot) : Bool := p.visible && decide (p.type = type_E.TABLE)

/-- Visible plots of kind Curve or Bar. -/
def isVisibleCurveBar (p : Plot) : Bool :=
  p.visible && (decide (p.type = type_E.CURVE) || decide (p.type = type_E.BAR))

/-! ## Concrete inputs -/

/-- A series of the variable at address 0 whose buffer holds no sample. -/
def emptySeries : Series := ⟨0, ScrollingBuffer.fresh 4⟩

/-- A visible Bar plot with one series. -/
def barPlot : Plot := ⟨"bar", type_E.BAR, true, ScrollingBuffer.fresh 4, [("a", emptySeries)]⟩

/-- A visible Table plot with one series. -/
def tablePlot : Plot := ⟨"table", type_E.TABLE, true, ScrollingBuffer.fresh 4, [("a", emptySeries)]⟩

/-- A visible Table plot whose series holds the sample 7. -/
def filledTablePlot : Plot :=
  ⟨"table", type_E.TABLE, true, ScrollingBuffer.fresh 4,
    [("a", ⟨0, (ScrollingBuffer.fresh 4).push 7⟩)]⟩

/-- A visible Table plot without series. -/
def emptyTablePlot : Plot := ⟨"table", type_E.TABLE, true, ScrollingBuffer.fresh 4, []⟩

/-- A visible Curve plot with one series. -/
def curvePlot : Plot := ⟨"curve", type_E.CURVE, true, ScrollingBuffer.fresh 4, [("a", emptySeries)]⟩

/-- A plot whose only series is keyed by the empty string. -/
def unnamedSeriesPlot : Plot :=
  ⟨"plot", type_E.CURVE, true, ScrollingBuffer.fresh 4, [("", emptySeries)]⟩

/-- A frame in which the plot is drawn and nothing is dropped on it. -/
def quietPlotUi : PlotUi := ⟨true, false, none⟩

/-- A frame in which the table is drawn, no cell is active, no key is pressed
and nothing is dropped. -/
def quietTableUi : TableUi := ⟨true, fun _ => (false, ""), false, false, none⟩

/-- A frame in which the cell of series `a` is active with the text `1.5` and
Enter is pressed. -/
def writeTableUi : TableUi :=
  ⟨true, fun key => if key = "a" then (true, "1.5") else (false, ""), true, false, none⟩

/-- A frame in which the tab and its list box are shown and no popup is open,
no button pressed, nothing edited on the given plot. -/
def quietTabUi (plt : Plot) : PlotTabUi :=
  ⟨true, false, false, plt.name, plt.type, plt.visible, true, fun _ => false, fun _ => false⟩

/-- A frame in which every plot is drawn and nothing else happens. -/
def quietFrameUi : FrameUi := ⟨fun _ => quietTableUi, true, fun _ => quietPlotUi⟩

/-- Two variables `a` and `b`. -/
def twoVarsHeap : List Variable :=
  [⟨"a", 0x20000000, VarType.U8, 0⟩, ⟨"b", 0x20000004, VarType.U32, 0⟩]

/-- A Gui with the variables `a` and `b`, a Table plot showing `a`, a Bar
plot, a Curve plot and a hidden Curve plot. -/
def demoGui : Gui :=
  { heap := twoVarsHeap
    vars := [("a", 0), ("b", 1)]
    plotHandler :=
      ⟨[tablePlot, barPlot, curvePlot, { curvePlot with name := "hidden", visible := false }],
       state.STOP⟩
    viewerState := state.STOP }

/-- A frame of the variable table in which Enter is pressed, the row `old`
holds the text `new` and no popup is open. -/
def renameUi (old new : String) : VarTableUi :=
  ⟨true, fun label => if label = old then new else label, true, fun _ => false, fun _ => false⟩

/-- The registry invariant: the entries are in strictly increasing key order,
every entry points to a live object that carries the entry's key as its name,
and no two entries point to the same object. -/
def WellFormed (heap : List Variable) (vars : StdMap VarId) : Prop :=
  vars.Pairwise (fun a b => keyLess a.1 b.1 = true) ∧
  (∀ e ∈ vars, getName heap e.2 = some e.1) ∧
  (vars.map Prod.snd).Nodup

/-- Value of a list of decimal digit characters, continuing from `acc`. -/
def decimalValue (acc : Nat) (ds : List Char) : Nat :=
  ds.foldl (fun a c => 10 * a + (c.toNat - 48)) acc

/-- C3: `drawStartButton` is the two-state machine Stopped <-> Running.  A
press in the state Stopped calls `eraseAllPlotData` and then sets the
PlotHandler state to Running; a press in the state Running sets it to Stopped
and calls nothing else, the plots staying as they are; without a press nothing
changes; the Gui state and the PlotHandler state stay equal when they are. -/
theorem drawStartButton_state_machine (g : Gui) :
    (g.viewerState = state.STOP →
      (drawStartButton true g).2 = [Event.eraseAllPlotData, Event.setViewerState state.RUN] ∧
      (drawStartButton true g).1.plotHandler
        = ⟨g.plotHandler.plots.map Plot.eraseData, state.RUN⟩ ∧
      (drawStartButton true g).1.viewerState = state.RUN) ∧
    (g.viewerState = state.RUN →
      (drawStartButton true g).2 = [Event.setViewerState state.STOP] ∧
      (drawStartButton true g).1.plotHandler = ⟨g.plotHandler.plots, state.STOP⟩ ∧
      (drawStartButton true g).1.viewerState = state.STOP) ∧
    drawStartButton false g = (g, []) ∧
    (∀ pressed, (drawStartButton pressed g).1.heap = g.heap ∧
      (drawStartButton pressed g).1.vars = g.vars) ∧
    (∀ pressed, g.viewerState = g.plotHandler.viewerState →
      (drawStartButton pressed g).1.viewerState
        = (drawStartButton pressed g).1.plotHandler.viewerState) ∧
    (g.viewerState = g.plotHandler.viewerState →
      (g.plotHandler.viewerState = state.STOP →
        (drawStartButton true g).2 = [Event.eraseAllPlotData, Event.setViewerState state.RUN] ∧
        (drawStartButton true g).1.plotHandler.viewerState = state.RUN) ∧
      (g.plotHandler.viewerState = state.RUN →
        (drawStartButton true g).2 = [Event.setViewerState state.STOP] ∧
        (drawStartButton true g).1.plotHandler.plots = g.plotHandler.plots ∧
        (drawStartButton true g).1.plotHandler.viewerState = state.STOP)) := by
  have hstop : g.viewerState = state.STOP →
      (drawStartButton true g).2 = [Event.eraseAllPlotData, Event.setViewerState state.RUN] ∧
      (drawStartButton true g).1.plotHandler
        = ⟨g.plotHandler.plots.map Plot.eraseData, state.RUN⟩ ∧
      (drawStartButton true g).1.viewerState = state.RUN := by
    intro h
    simp [drawStartButton, h, PlotHandler.eraseAllPlotData, PlotHandler.setViewerState]
  have hrun : g.viewerState = state.RUN →
      (drawStartButton true g).2 = [Event.setViewerState state.STOP] ∧
      (drawStartButton true g).1.plotHandler = ⟨g.plotHandler.plots, state.STOP⟩ ∧
      (drawStartButton true g).1.viewerState = state.STOP := by
    intro h
    simp [drawStartButton, h, PlotHandler.setViewerState]
  refine ⟨hstop, hrun, ?_, ?_, ?_, ?_⟩
  · simp [drawStartButton]
  · intro pressed
    cases pressed
    · simp [drawStartButton]
    · by_cases hs : g.viewerState = state.STOP
      · simp [drawStartButton, hs]
      · simp [drawStartButton, hs]
  · intro pressed h
    cases pressed
    · simpa [drawStartButton] using h
    · by_cases hs : g.viewerState = state.STOP
      · simp [drawStartButton, hs, PlotHandler.setViewerState, PlotHandler.eraseAllPlotData]
      · simp [drawStartButton, hs, PlotHandler.setViewerState]
  · intro hsync
    constructor
    · intro h
      obtain ⟨h1, h2, _⟩ := hstop (hsync.trans h)
      exact ⟨h1, by rw [h2]⟩
    · intro h
      obtain ⟨h1, h2, _⟩ := hrun (hsync.trans h)
      exact ⟨h1, by rw [h2], by rw [h2]⟩

theorem writeBacks_append (a b : List Event) : writeBacks (a ++ b) = writeBacks a ++ writeBacks b := by
  simp [writeBacks, List.filterMap_append]

theorem mem_writeBacks_tableRowTrace (ui : TableUi) (running : Bool) (e : String × Series)
    (x : VarId × String) (hx : x ∈ writeBacks (tableRowTrace ui running e)) :
    running = true ∧ ui.enterPressed = true ∧ (ui.selectableInput e.1).1 = true ∧
      x = (e.2.var, (ui.selectableInput e.1).2) := by
  unfold tableRowTrace at hx
  by_cases h1 : (ui.selectableInput e.1).1 = true
  · cases running
    · simp [writeBacks, h1] at hx
    · by_cases h2 : ui.enterPressed = true
      · simp [writeBacks, h1, h2] at hx
        exact ⟨rfl, h2, h1, hx⟩
      · simp [writeBacks, h1, h2] at hx
  · simp [writeBacks, h1] at hx

theorem mem_writeBacks_flatMap (ui : TableUi) (running : Bool) (m : StdMap Series)
    (x : VarId × String) (hx : x ∈ writeBacks (m.flatMap (tableRowTrace ui running))) :
    ∃ e ∈ m, x ∈ writeBacks (tableRowTrace ui running e) := by
  induction m with
  | nil => simp [writeBacks] at hx
  | cons e rest ih =>
    rw [List.flatMap_cons, writeBacks_append, List.mem_append] at hx
    rcases hx with hx | hx
    · exact ⟨e, List.mem_cons_self _ _, hx⟩
    · obtain ⟨e', he', hx'⟩ := ih hx
      exact ⟨e', List.mem_cons_of_mem _ he', hx'⟩

/-- C4: `drawPlotTable` calls `writeSeriesValue` for a series only when the
acquisition state is Running, the input cell of that series reported activity
and Enter is pressed; in the state Stopped it never calls it. -/
theorem drawPlotTable_writeSeriesValue (ui : TableUi) (heap : List Variable)
    (vars : StdMap VarId) (handler : PlotHandler) (plot : Plot) :
    (handler.viewerState = state.STOP →
      writeBacks (drawPlotTable ui heap vars handler.getViewerState plot).trace = []) ∧
    (∀ x ∈ writeBacks (drawPlotTable ui heap vars handler.getViewerState plot).trace,
      handler.viewerState = state.RUN ∧ ui.enterPressed = true ∧
      ∃ e ∈ plot.seriesMap, (ui.selectableInput e.1).1 = true ∧
        x = (e.2.var, (ui.selectableInput e.1).2)) := by
  have key : ∀ x ∈ writeBacks (drawPlotTable ui heap vars handler.getViewerState plot).trace,
      handler.viewerState = state.RUN ∧ ui.enterPressed = true ∧
      ∃ e ∈ plot.seriesMap, (ui.selectableInput e.1).1 = true ∧
        x = (e.2.var, (ui.selectableInput e.1).2) := by
    intro x hx
    unfold drawPlotTable at hx
    split at hx
    · simp [writeBacks] at hx
    · split at hx
      · obtain ⟨e, he, hxe⟩ := mem_writeBacks_flatMap _ _ _ _ hx
        obtain ⟨hr, hE, hA, hX⟩ := mem_writeBacks_tableRowTrace _ _ _ _ hxe
        refine ⟨?_, hE, e, he, hA, hX⟩
        simpa [PlotHandler.getViewerState] using hr
      · simp [writeBacks] at hx
  refine ⟨?_, key⟩
  intro hstop
  apply List.eq_nil_iff_forall_not_mem.mpr
  intro x hx
  have := (key x hx).1
  rw [hstop] at this
  exact absurd this (by decide)

/-- In the state Running, with the cell of series `a` active and Enter
pressed, the write-back of the typed text is issued. -/
theorem drawPlotTable_writes_when_running :
    writeBacks (drawPlotTable writeTableUi twoVarsHeap [("a", 0), ("b", 1)] true tablePlot).trace
      = [(0, "1.5")] ∧
    writeBacks (drawPlotTable writeTableUi twoVarsHeap [("a", 0), ("b", 1)] false tablePlot).trace
      = [] := by
  decide
/-! ## Lock discipline of the render paths -/

theorem lockDiscipline_copyData (m : StdMap Series) (rest : List Event) :
    lockDiscipline true (m.map (fun e => Event.copyData (Buf.series e.1)) ++ rest)
      = lockDiscipline true rest := by
  induction m with
  | nil => rfl
  | cons e tl ih => simpa [lockDiscipline, Event.isLiveRead, Event.isPlotting] using ih

theorem lockDiscipline_plotLines (m : StdMap Series) :
    lockDiscipline false (m.flatMap (fun e =>
        [Event.getFirstElementCopy Buf.time, Event.getFirstElementCopy (Buf.series e.1),
         Event.plotLine e.1])) = true := by
  induction m with
  | nil => rfl
  | cons e tl ih => simpa [lockDiscipline, Event.isLiveRead, Event.isPlotting] using ih

/-- The Curve path keeps the lock discipline: every live read is between
`lock` and `unlock`, plotting happens after the release. -/
theorem curveTrace_lockDiscipline (m : StdMap Series) :
    lockDiscipline false (curveTrace m) = true := by
  unfold curveTrace
  simp only [List.append_assoc, List.cons_append, List.nil_append]
  have h := lockDiscipline_plotLines m
  simp [lockDiscipline, Event.isLiveRead, Event.isPlotting, lockDiscipline_copyData, h]

/-- The Bar path and the Table path read `getLastElement` without the mutex
whenever the plot has a series. -/
theorem barTrace_lockDiscipline (e : String × Series) (m : StdMap Series) (ui : TableUi)
    (running : Bool) :
    lockDiscipline false (barTrace (e :: m)) = false ∧
    lockDiscipline false (List.flatMap (e :: m) (tableRowTrace ui running)) = false := by
  constructor
  · simp [barTrace, lockDiscipline, Event.isLiveRead]
  · simp [tableRowTrace, lockDiscipline, Event.isLiveRead]

/-- C5 (the code departs from the claim): a visible Bar plot and a visible
Table plot with one series each; the render paths read `getLastElement` of the
series buffer and no `lock` occurs in the trace. -/
theorem render_bar_table_read_without_lock :
    (drawPlotCurveBar quietPlotUi twoVarsHeap [("a", 0), ("b", 1)] barPlot).trace
      = [Event.getLastElement (Buf.series "a"), Event.deref (Buf.series "a") none,
         Event.plotBars "a"] ∧
    lockDiscipline false
      (drawPlotCurveBar quietPlotUi twoVarsHeap [("a", 0), ("b", 1)] barPlot).trace = false ∧
    (drawPlotTable quietTableUi twoVarsHeap [("a", 0), ("b", 1)] true tablePlot).trace
      = [Event.getLastElement (Buf.series "a"), Event.deref (Buf.series "a") none] ∧
    lockDiscipline false
      (drawPlotTable quietTableUi twoVarsHeap [("a", 0), ("b", 1)] true tablePlot).trace = false := by
  decide

/-! ## `getLastElement` in the Bar and Table paths -/

theorem derefs_append (a b : List Event) : derefs (a ++ b) = derefs a ++ derefs b := by
  simp [derefs, List.filterMap_append]

theorem derefs_barTrace (m : StdMap Series) :
    derefs (barTrace m) = m.map (fun e => (Buf.series e.1, e.2.buffer.getLastElement)) := by
  induction m with
  | nil => rfl
  | cons e tl ih =>
    have : barTrace (e :: tl) = [Event.getLastElement (Buf.series e.1),
        Event.deref (Buf.series e.1) e.2.buffer.getLastElement, Event.plotBars e.1]
          ++ barTrace tl := by
      simp [barTrace]
    rw [this, derefs_append, ih]
    simp [derefs]

theorem derefs_tableRowTrace (ui : TableUi) (running : Bool) (e : String × Series) :
    derefs (tableRowTrace ui running e) = [(Buf.series e.1, e.2.buffer.getLastElement)] := by
  unfold tableRowTrace
  rw [derefs_append]
  have h : derefs (if (ui.selectableInput e.1).1 = true then
      if (!running) = true then []
      else if ui.enterPressed = true then
        [Event.writeSeriesValue e.2.var (ui.selectableInput e.1).2] else []
      else []) = [] := by
    split
    · split
      · rfl
      · split <;> rfl
    · rfl
  rw [h]
  simp [derefs]

theorem derefs_tableRows (ui : TableUi) (running : Bool) (m : StdMap Series) :
    derefs (m.flatMap (tableRowTrace ui running))
      = m.map (fun e => (Buf.series e.1, e.2.buffer.getLastElement)) := by
  induction m with
  | nil => rfl
  | cons e tl ih =>
    rw [List.flatMap_cons, derefs_append, ih, derefs_tableRowTrace]
    simp

/-- C8 (as stated, refuted): a Table plot to which a series has just been
added is rendered; the result of `getLastElement` that is dereferenced is "no
data". -/
theorem drawPlotTable_derefs_no_data :
    ¬ (∀ x ∈ derefs (drawPlotTable quietTableUi twoVarsHeap [("a", 0), ("b", 1)] true
          (emptyTablePlot.addSeries 0 "a")).trace, x.2.isSome = true) := by
  decide

/-- C8 (amended): the Table path and the Bar path dereference the result of
`getLastElement` once for every series of the rendered plot, without a test;
the dereferenced result is "no data" for every buffer that holds no sample and
a value for every buffer (with its storage in place) that holds one. -/
theorem render_derefs_every_series (heap : List Variable) (vars : StdMap VarId) (plot : Plot) :
    (∀ (ui : TableUi) (running : Bool), plot.visible = true → ui.beginTable = true →
      derefs (drawPlotTable ui heap vars running plot).trace
        = plot.seriesMap.map (fun e => (Buf.series e.1, e.2.buffer.getLastElement))) ∧
    (∀ (ui : PlotUi) (plot1 : Plot), plot.visible = true → plot.type = type_E.BAR →
      ui.beginPlot = true → dragDrop heap vars ui.dragDropTarget ui.payload plot = some plot1 →
      derefs (drawPlotCurveBar ui heap vars plot).trace
        = plot1.seriesMap.map (fun e => (Buf.series e.1, e.2.buffer.getLastElement))) ∧
    (∀ b : ScrollingBuffer, b.filledCount = 0 → b.getLastElement = none) ∧
    (∀ b : ScrollingBuffer, b.storage.length = b.capacity → 0 < b.capacity →
      b.filledCount ≠ 0 → b.getLastElement.isSome = true) := by
  refine ⟨?_, ?_, ?_, ?_⟩
  · intro ui running hv hb
    simp [drawPlotTable, hv, hb, derefs_tableRows]
  · intro ui plot1 hv ht hb hd
    simp [drawPlotCurveBar, hv, ht, hb, hd, derefs_barTrace]
  · intro b hb
    simp [ScrollingBuffer.getLastElement, hb]
  · intro b hlen hcap hfill
    have hidx : (b.writeIndex + b.capacity - 1) % b.capacity < b.storage.length := by
      rw [hlen]
      exact Nat.mod_lt _ hcap
    simp [ScrollingBuffer.getLastElement, hfill, List.getElem?_eq_getElem hidx]

/-- Witness for C8 (amended): a Table plot with a series without samples and
one with a series that holds the sample 7. -/
theorem render_derefs_every_series_witness :
    derefs (drawPlotTable quietTableUi twoVarsHeap [("a", 0), ("b", 1)] true tablePlot).trace
      = [(Buf.series "a", none)] ∧
    derefs (drawPlotTable quietTableUi twoVarsHeap [("a", 0), ("b", 1)] true
        filledTablePlot).trace
      = [(Buf.series "a", some 7)] :=
  ⟨(render_derefs_every_series twoVarsHeap [("a", 0), ("b", 1)] tablePlot).1
      quietTableUi true rfl rfl,
   (render_derefs_every_series twoVarsHeap [("a", 0), ("b", 1)] filledTablePlot).1
      quietTableUi true rfl rfl⟩

/-! ## The series list of `drawPlotsTree` -/

/-- C10 (the code departs from the claim): a plot whose series is keyed by the
empty string loses it in a frame in which no popup is open and no button is
pressed: `showDeletePopup` returns the empty string, which equals the key, and
`removeSeries` is called with the empty string. -/
theorem drawPlotsTree_removes_unnamed_series :
    unnamedSeriesPlot.seriesMap = [("", emptySeries)] ∧
    showDeletePopup false false "" = "" ∧
    seriesNameToDelete (quietTabUi unnamedSeriesPlot) unnamedSeriesPlot.seriesMap = "" ∧
    (drawPlotsTreeListBox (quietTabUi unnamedSeriesPlot) unnamedSeriesPlot).seriesMap = [] ∧
    (drawPlotsTreeTab (quietTabUi unnamedSeriesPlot) unnamedSeriesPlot).plot.seriesMap = [] := by
  decide

/-- Where no series is keyed by the empty string, a frame of the list box
without a pressed delete button leaves the plot as it is. -/
theorem drawPlotsTreeListBox_quiet (ui : PlotTabUi) (plt : Plot)
    (hkeys : ∀ e ∈ plt.seriesMap, e.1 ≠ "")
    (hquiet : ∀ e ∈ plt.seriesMap,
      (ui.seriesPopupOpen e.1 && ui.seriesDeleteButton e.1) = false) :
    drawPlotsTreeListBox ui plt = plt := by
  have hfold : ∀ (m : StdMap Series), (∀ e ∈ m, e.1 ≠ "") →
      (∀ e ∈ m, (ui.seriesPopupOpen e.1 && ui.seriesDeleteButton e.1) = false) →
      seriesNameToDelete ui m = "" := by
    intro m
    unfold seriesNameToDelete
    induction m with
    | nil => intro _ _; rfl
    | cons e tl ih =>
      intro h1 h2
      have hk := h1 e (List.mem_cons_self _ _)
      have hq := h2 e (List.mem_cons_self _ _)
      have hstep : (if showDeletePopup (ui.seriesPopupOpen e.1) (ui.seriesDeleteButton e.1) e.1
          == e.1 then e.1 else "") = "" := by
        unfold showDeletePopup
        cases hp : ui.seriesPopupOpen e.1 <;> cases hb : ui.seriesDeleteButton e.1 <;>
          simp_all [Ne.symm hk]
      rw [List.foldl_cons, hstep]
      exact ih (fun e he => h1 e (List.mem_cons_of_mem _ he))
        (fun e he => h2 e (List.mem_cons_of_mem _ he))
  unfold drawPlotsTreeListBox
  split
  · rw [hfold plt.seriesMap hkeys hquiet]
    have : StdMap.erase plt.seriesMap "" = plt.seriesMap := by
      unfold StdMap.erase
      rw [List.filter_eq_self]
      intro e he
      simpa using hkeys e he
    simp [Plot.removeSeries, this]
  · rfl
/-! ## The subplot layout of `mainThread` -/

theorem addSeries_fields (p : Plot) (v : VarId) (n : String) :
    (p.addSeries v n).visible = p.visible ∧ (p.addSeries v n).type = p.type ∧
      (p.addSeries v n).name = p.name := by
  unfold Plot.addSeries
  split
  · split <;> simp
  · simp

theorem dragDrop_fields (heap : List Variable) (vars : StdMap VarId) (t : Bool)
    (payload : Option String) (p q : Plot) (h : dragDrop heap vars t payload p = some q) :
    q.visible = p.visible ∧ q.type = p.type := by
  unfold dragDrop at h
  cases t with
  | false => simp at h; subst h; exact ⟨rfl, rfl⟩
  | true =>
    cases payload with
    | none => simp at h; subst h; exact ⟨rfl, rfl⟩
    | some name =>
      simp only [if_true, addDroppedSeries] at h
      split at h
      · exact absurd h (by simp)
      · split at h
        · exact absurd h (by simp)
        · simp only [Option.some.injEq] at h
          subst h
          exact ⟨(addSeries_fields _ _ _).1, (addSeries_fields _ _ _).2.1⟩

theorem drawPlotTable_fields (ui : TableUi) (heap : List Variable) (vars : StdMap VarId)
    (running : Bool) (p q : Plot) (h : (drawPlotTable ui heap vars running p).plot = some q) :
    q.visible = p.visible ∧ q.type = p.type := by
  unfold drawPlotTable at h
  split at h
  · simp at h; subst h; exact ⟨rfl, rfl⟩
  · split at h
    · exact dragDrop_fields _ _ _ _ _ _ h
    · simp at h; subst h; exact ⟨rfl, rfl⟩

theorem drawPlotCurveBar_returnedEarly (ui : PlotUi) (heap : List Variable)
    (vars : StdMap VarId) (p : Plot) :
    (drawPlotCurveBar ui heap vars p).returnedEarly = !p.visible := by
  unfold drawPlotCurveBar
  cases hv : p.visible
  · simp
  · simp only [Bool.not_true, Bool.false_eq_true, if_false]
    repeat' split
    all_goals rfl

theorem drawPlotCurveBar_fields (ui : PlotUi) (heap : List Variable) (vars : StdMap VarId)
    (p q : Plot) (h : (drawPlotCurveBar ui heap vars p).plot = some q) :
    q.visible = p.visible ∧ q.type = p.type := by
  unfold drawPlotCurveBar at h
  cases hv : p.visible
  · simp [hv] at h; subst h; simp [hv]
  · simp only [hv, Bool.not_true, Bool.false_eq_true, if_false] at h
    split at h
    · split at h
      · split at h
        · exact absurd h (by simp)
        · rename_i plot1 hd
          simp only [Option.some.injEq] at h
          subst h
          simpa [hv] using dragDrop_fields _ _ _ _ _ _ hd
      · simp at h; subst h; simp [hv]
    · split at h
      · split at h
        · split at h
          · exact absurd h (by simp)
          · rename_i plot1 hd
            simp only [Option.some.injEq] at h
            subst h
            simpa [hv] using dragDrop_fields _ _ _ _ _ _ hd
        · simp at h; subst h; simp [hv]
      · simp at h; subst h; simp [hv]

theorem countP_visible_split (plots : List Plot) :
    plots.countP (fun p => p.visible)
      = plots.countP isVisibleTable + plots.countP isVisibleCurveBar := by
  induction plots with
  | nil => rfl
  | cons p tl ih =>
    obtain ⟨nm, ty, vis, tm, sm⟩ := p
    simp only [List.countP_cons, ih, isVisibleTable, isVisibleCurveBar]
    cases vis <;> cases ty <;> simp <;> omega

theorem drawTables_spec (ui : FrameUi) (heap : List Variable) (vars : StdMap VarId)
    (running : Bool) (plots : List Plot) :
    ∀ (t0 : Nat) (plots1 : List Plot) (n : Nat) (tr : List Event),
      drawTables ui heap vars running plots t0 = some (plots1, n, tr) → t0 < 2 ^ 32 →
      plots1.map (fun p => (p.visible, p.type)) = plots.map (fun p => (p.visible, p.type)) ∧
      n = (t0 + plots.countP isVisibleTable) % 2 ^ 32 := by
  induction plots with
  | nil =>
    intro t0 plots1 n tr h ht
    simp only [drawTables, Option.some.injEq, Prod.mk.injEq] at h
    obtain ⟨h1, h2, _⟩ := h
    subst h1; subst h2
    simp only [List.map_nil, List.countP_nil, Nat.add_zero, true_and]
    omega
  | cons p tl ih =>
    intro t0 plots1 n tr h ht
    unfold drawTables at h
    split at h
    · rename_i hT
      dsimp only at h
      split at h
      · exact absurd h (by simp)
      · rename_i plt1 hp
        have hf := drawPlotTable_fields _ _ _ _ _ _ hp
        split at h
        · exact absurd h (by simp)
        · rename_i rest1 n1 tr1 hrec
          simp only [Option.some.injEq, Prod.mk.injEq] at h
          obtain ⟨h1, h2, _⟩ := h
          subst h1; subst h2
          have hlt : (if plt1.visible = true then (t0 + 1) % 2 ^ 32 else t0) < 2 ^ 32 := by
            split
            · exact Nat.mod_lt _ (by norm_num)
            · exact ht
          obtain ⟨ihm, ihn⟩ := ih _ _ _ _ hrec hlt
          refine ⟨by simp [ihm, hf.1, hf.2], ?_⟩
          rw [ihn, hf.1]
          simp only [List.countP_cons, isVisibleTable, hT]
          cases hv : p.visible
          · simp
          · simp
            omega
    · rename_i hT
      split at h
      · exact absurd h (by simp)
      · rename_i rest1 n1 tr1 hrec
        simp only [Option.some.injEq, Prod.mk.injEq] at h
        obtain ⟨h1, h2, _⟩ := h
        subst h1; subst h2
        obtain ⟨ihm, ihn⟩ := ih _ _ _ _ hrec ht
        refine ⟨by simp [ihm], ?_⟩
        rw [ihn]
        simp [List.countP_cons, isVisibleTable, hT]

theorem drawCurveBars_spec (ui : FrameUi) (heap : List Variable) (vars : StdMap VarId)
    (plots : List Plot) :
    ∀ (plots1 : List Plot) (n : Nat) (tr : List Event),
      drawCurveBars ui heap vars plots = some (plots1, n, tr) →
      n = plots.countP isVisibleCurveBar := by
  induction plots with
  | nil =>
    intro plots1 n tr h
    simp only [drawCurveBars, Option.some.injEq, Prod.mk.injEq] at h
    simp [← h.2.1]
  | cons p tl ih =>
    intro plots1 n tr h
    unfold drawCurveBars at h
    split at h
    · rename_i hT
      dsimp only at h
      split at h
      · exact absurd h (by simp)
      · split at h
        · exact absurd h (by simp)
        · rename_i rest1 n1 tr1 hrec
          simp only [Option.some.injEq, Prod.mk.injEq] at h
          obtain ⟨_, h2, _⟩ := h
          subst h2
          rw [ih _ _ _ hrec, drawPlotCurveBar_returnedEarly]
          simp only [List.countP_cons, isVisibleCurveBar]
          have hd : (decide (p.type = type_E.CURVE) || decide (p.type = type_E.BAR)) = true := by
            rcases hT with hT | hT <;> simp [hT]
          simp only [hd, Bool.and_true]
          by_cases hv : p.visible = true
          · simp [hv]
          · simp [hv]
    · rename_i hT
      split at h
      · exact absurd h (by simp)
      · rename_i rest1 n1 tr1 hrec
        simp only [Option.some.injEq, Prod.mk.injEq] at h
        obtain ⟨_, h2, _⟩ := h
        subst h2
        rw [ih _ _ _ hrec]
        have h1 : p.type ≠ type_E.CURVE := fun hc => hT (Or.inl hc)
        have h2 : p.type ≠ type_E.BAR := fun hc => hT (Or.inr hc)
        simp [List.countP_cons, isVisibleCurveBar, h1, h2]
theorem dragDrop_isSome (heap : List Variable) (vars : StdMap VarId) (t : Bool)
    (payload : Option String) (p : Plot)
    (h : ∀ name, payload = some name → ∃ v n, vars.find name = some v ∧ getName heap v = some n) :
    ∃ q, dragDrop heap vars t payload p = some q := by
  unfold dragDrop
  cases t with
  | false => exact ⟨p, by simp⟩
  | true =>
    cases payload with
    | none => exact ⟨p, by simp⟩
    | some name =>
      obtain ⟨v, n, hv, hn⟩ := h name rfl
      exact ⟨p.addSeries v n, by simp [addDroppedSeries, hv, hn]⟩

theorem drawPlotTable_isSome (ui : TableUi) (heap : List Variable) (vars : StdMap VarId)
    (running : Bool) (p : Plot)
    (h : ∀ name, ui.payload = some name →
      ∃ v n, vars.find name = some v ∧ getName heap v = some n) :
    ∃ q, (drawPlotTable ui heap vars running p).plot = some q := by
  unfold drawPlotTable
  split
  · exact ⟨p, rfl⟩
  · split
    · exact dragDrop_isSome _ _ _ _ _ h
    · exact ⟨p, rfl⟩

theorem drawPlotCurveBar_isSome (ui : PlotUi) (heap : List Variable) (vars : StdMap VarId)
    (p : Plot)
    (h : ∀ name, ui.payload = some name →
      ∃ v n, vars.find name = some v ∧ getName heap v = some n) :
    ∃ q, (drawPlotCurveBar ui heap vars p).plot = some q := by
  obtain ⟨q, hq⟩ := dragDrop_isSome heap vars ui.dragDropTarget ui.payload p h
  unfold drawPlotCurveBar
  split
  · exact ⟨p, rfl⟩
  · split
    · split
      · exact ⟨q, by simp [hq]⟩
      · exact ⟨p, rfl⟩
    · split
      · split
        · exact ⟨q, by simp [hq]⟩
        · exact ⟨p, rfl⟩
      · exact ⟨p, rfl⟩

theorem drawTables_isSome (ui : FrameUi) (heap : List Variable) (vars : StdMap VarId)
    (running : Bool)
    (h : ∀ plot name, (ui.table plot).payload = some name →
      ∃ v n, vars.find name = some v ∧ getName heap v = some n)
    (plots : List Plot) : ∀ t0, ∃ r, drawTables ui heap vars running plots t0 = some r := by
  induction plots with
  | nil => intro t0; exact ⟨_, rfl⟩
  | cons p tl ih =>
    intro t0
    unfold drawTables
    split
    · obtain ⟨q, hq⟩ := drawPlotTable_isSome (ui.table p.name) heap vars running p (h p.name)
      simp only [hq]
      obtain ⟨r, hr⟩ := ih (if q.visible = true then (t0 + 1) % 2 ^ 32 else t0)
      rw [hr]
      exact ⟨_, rfl⟩
    · obtain ⟨r, hr⟩ := ih t0
      rw [hr]
      exact ⟨_, rfl⟩

theorem drawCurveBars_isSome (ui : FrameUi) (heap : List Variable) (vars : StdMap VarId)
    (h : ∀ plot name, (ui.plot plot).payload = some name →
      ∃ v n, vars.find name = some v ∧ getName heap v = some n)
    (plots : List Plot) : ∃ r, drawCurveBars ui heap vars plots = some r := by
  induction plots with
  | nil => exact ⟨_, rfl⟩
  | cons p tl ih =>
    obtain ⟨r, hr⟩ := ih
    unfold drawCurveBars
    split
    · obtain ⟨q, hq⟩ := drawPlotCurveBar_isSome (ui.plot p.name) heap vars p (h p.name)
      simp [hq, hr]
    · simp [hr]

theorem countP_visible_of_map (l1 l2 : List Plot)
    (h : l1.map (fun p => (p.visible, p.type)) = l2.map (fun p => (p.visible, p.type))) :
    l1.countP (fun p => p.visible) = l2.countP (fun p => p.visible) ∧
    l1.countP isVisibleCurveBar = l2.countP isVisibleCurveBar := by
  have e1 : ∀ l : List Plot, l.countP (fun p => p.visible)
      = (l.map (fun p => (p.visible, p.type))).countP (fun x => x.1) := by
    intro l
    rw [List.countP_map]
    rfl
  have e2 : ∀ l : List Plot, l.countP isVisibleCurveBar
      = (l.map (fun p => (p.visible, p.type))).countP
          (fun x => x.1 && (decide (x.2 = type_E.CURVE) || decide (x.2 = type_E.BAR))) := by
    intro l
    rw [List.countP_map]
    rfl
  rw [e1 l1, e1 l2, e2 l1, e2 l2, h]
  exact ⟨rfl, rfl⟩

/-- C6: the subplot layout of `mainThread`.  With fewer than 2^32 plots the
unsigned subtraction does not underflow, its result is the number of visible
Curve and Bar plots, the row count is that number or 1 when it is zero, and
the number of plots drawn in the grid does not exceed the row count.  The
frame produces this result whenever every dropped payload names a registered
variable. -/
theorem mainThreadPlots_layout (ui : FrameUi) (g : Gui)
    (hlen : g.plotHandler.plots.length < 2 ^ 32) :
    ((∀ plot name, ((ui.table plot).payload = some name ∨ (ui.plot plot).payload = some name) →
        ∃ v n, g.vars.find name = some v ∧ getName g.heap v = some n) →
      ∃ r, mainThreadPlots ui g = some r) ∧
    ∀ r, mainThreadPlots ui g = some r →
      r.visiblePlotsCount = g.plotHandler.plots.countP (fun p => p.visible) ∧
      r.tablePlots = g.plotHandler.plots.countP isVisibleTable ∧
      r.tablePlots ≤ r.visiblePlotsCount ∧
      r.curveBarPlotsCnt = r.visiblePlotsCount - r.tablePlots ∧
      r.curveBarPlotsCnt = g.plotHandler.plots.countP isVisibleCurveBar ∧
      r.row = (if 0 < g.plotHandler.plots.countP isVisibleCurveBar
                then g.plotHandler.plots.countP isVisibleCurveBar else 1) ∧
      1 ≤ r.row ∧
      r.drawn ≤ r.row ∧
      (ui.beginSubplots = true → r.drawn = g.plotHandler.plots.countP isVisibleCurveBar) := by
  constructor
  · intro hp
    obtain ⟨⟨plots1, n, tr⟩, h1⟩ := drawTables_isSome ui g.heap g.vars
      g.plotHandler.getViewerState (fun plot name h => hp plot name (Or.inl h))
      g.plotHandler.plots 0
    obtain ⟨⟨plots2, d, tr2⟩, h2⟩ := drawCurveBars_isSome ui g.heap g.vars
      (fun plot name h => hp plot name (Or.inr h)) plots1
    unfold mainThreadPlots
    simp only [h1, h2]
    split <;> exact ⟨_, rfl⟩
  · intro r hr
    unfold mainThreadPlots at hr
    split at hr
    · exact absurd hr (by simp)
    · rename_i plots1 tablePlots tr1 h1
      obtain ⟨hmap, hn⟩ := drawTables_spec _ _ _ _ _ _ _ _ _ h1 (by norm_num)
      obtain ⟨hV, hCB⟩ := countP_visible_of_map _ _ hmap
      have hsplit := countP_visible_split g.plotHandler.plots
      have hle : g.plotHandler.plots.countP (fun p => p.visible) ≤ g.plotHandler.plots.length :=
        List.countP_le_length _
      have hvis : PlotHandler.getVisiblePlotsCount { g.plotHandler with plots := plots1 }
          = g.plotHandler.plots.countP (fun p => p.visible) := by
        simp only [PlotHandler.getVisiblePlotsCount, ← List.countP_eq_length_filter, hV]
        apply Nat.mod_eq_of_lt
        omega
      have hT : tablePlots = g.plotHandler.plots.countP isVisibleTable := by
        rw [hn, Nat.zero_add]
        apply Nat.mod_eq_of_lt
        omega
      have hcb : (PlotHandler.getVisiblePlotsCount { g.plotHandler with plots := plots1 }
          + 2 ^ 32 - tablePlots) % 2 ^ 32 = g.plotHandler.plots.countP isVisibleCurveBar := by
        rw [hvis, hT, hsplit]
        norm_num at hlen ⊢
        omega
      dsimp only at hr
      rw [hcb, hvis] at hr
      split at hr
      · split at hr
        · exact absurd hr (by simp)
        · rename_i plots2 drawn tr2 h2
          have hd := drawCurveBars_spec _ _ _ _ _ _ _ h2
          rw [hCB] at hd
          simp only [Option.some.injEq] at hr
          subst hr
          dsimp only
          refine ⟨rfl, hT, by omega, by omega, rfl, ?_, ?_, ?_, fun _ => hd⟩
          · simp only [gt_iff_lt]
          · split <;> omega
          · split <;> omega
      · simp only [Option.some.injEq] at hr
        subst hr
        dsimp only
        refine ⟨rfl, hT, by omega, by omega, rfl, ?_, ?_, ?_, ?_⟩
        · simp only [gt_iff_lt]
        · split <;> omega
        · omega
        · intro hb
          rename_i hnb
          exact absurd hb hnb

/-- Witness for C6: a frame over one Table, one Bar, one Curve and one hidden
Curve plot lays out two rows and draws two plots. -/
theorem mainThreadPlots_layout_witness :
    demoGui.plotHandler.plots.length < 2 ^ 32 ∧
    (∃ r, mainThreadPlots quietFrameUi demoGui = some r ∧ r.tablePlots = 1 ∧
      r.visiblePlotsCount = 3 ∧ r.curveBarPlotsCnt = 2 ∧ r.row = 2 ∧ r.drawn = 2) :=
  ⟨by decide,
   by
    have h := mainThreadPlots_layout quietFrameUi demoGui (by decide)
    obtain ⟨r, hr⟩ := h.1 (by
      intro plot name hp
      rcases hp with hp | hp <;> simp [quietFrameUi, quietTableUi, quietPlotUi] at hp)
    have hp := h.2 r hr
    refine ⟨r, hr, ?_, ?_, ?_, ?_, ?_⟩
    · rw [hp.2.1]; decide
    · rw [hp.1]; decide
    · rw [hp.2.2.2.2.1]; decide
    · rw [hp.2.2.2.2.2.1]; decide
    · rw [hp.2.2.2.2.2.2.2.2 rfl]; decide⟩
/-! ## Decimal rendering is injective -/

theorem digitChar_value (d : Nat) (h : d < 10) : (Nat.digitChar d).toNat - 48 = d := by
  interval_cases d <;> rfl

theorem decimalValue_toDigitsCore (fuel : Nat) :
    ∀ (n : Nat) (ds : List Char), n < fuel →
      decimalValue 0 (Nat.toDigitsCore 10 fuel n ds) = decimalValue n ds := by
  induction fuel with
  | zero => intro n ds h; omega
  | succ f ih =>
    intro n ds h
    unfold Nat.toDigitsCore
    dsimp only
    split
    · rename_i h0
      have hn : n < 10 := by omega
      simp only [decimalValue, List.foldl_cons, Nat.mul_zero, Nat.zero_add]
      rw [digitChar_value _ (Nat.mod_lt _ (by norm_num)), Nat.mod_eq_of_lt hn]
    · rename_i h0
      rw [ih (n / 10) _ (by omega)]
      simp only [decimalValue, List.foldl_cons]
      rw [digitChar_value _ (Nat.mod_lt _ (by norm_num))]
      congr 1
      omega

theorem toString_nat_injective (a b : Nat) (h : toString a = toString b) : a = b := by
  have ha := decimalValue_toDigitsCore (a + 1) a [] (by omega)
  have hb := decimalValue_toDigitsCore (b + 1) b [] (by omega)
  have hd : Nat.toDigits 10 a = Nat.toDigits 10 b := by
    have := congrArg String.data h
    simpa [toString, Nat.repr] using this
  simp only [Nat.toDigits] at hd
  rw [hd, hb] at ha
  simpa [decimalValue] using ha.symm

theorem newVarName_injective (a b : Nat) (h : newVarName a = newVarName b) : a = b := by
  apply toString_nat_injective
  have := congrArg String.data h
  simp only [newVarName, String.data_append, List.append_cancel_left_eq] at this
  exact String.ext this
/-! ## Facts about `StdMap` -/

theorem keyLess_iff (a b : String) : keyLess a b = true ↔ a < b := by
  simp [keyLess, String.lt_iff_toList_lt]

theorem keyLess_irrefl (a : String) : keyLess a a = false := by
  have := lt_irrefl a
  rw [← keyLess_iff] at this
  simpa using this

theorem keyLess_asymm (a b : String) (h : keyLess a b = true) : keyLess b a = false := by
  have := lt_asymm ((keyLess_iff a b).1 h)
  rw [← keyLess_iff] at this
  simpa using this

theorem keyLess_total (a b : String) (h : a ≠ b) : keyLess a b = true ∨ keyLess b a = true := by
  rcases lt_trichotomy a b with h1 | h1 | h1
  · exact Or.inl ((keyLess_iff a b).2 h1)
  · exact absurd h1 h
  · exact Or.inr ((keyLess_iff b a).2 h1)

theorem keyLess_trans (a b c : String) (h1 : keyLess a b = true) (h2 : keyLess b c = true) :
    keyLess a c = true :=
  (keyLess_iff a c).2 (lt_trans ((keyLess_iff a b).1 h1) ((keyLess_iff b c).1 h2))

namespace StdMap

variable {β : Type}

theorem find_nil (k : String) : find ([] : StdMap β) k = none := rfl

theorem find_cons (e : String × β) (m : StdMap β) (k : String) :
    find (e :: m) k = if e.1 = k then some e.2 else find m k := by
  by_cases h : e.1 = k
  · simp [find, List.find?_cons, h]
  · simp [find, List.find?_cons, h]

theorem find_eq_none_iff (m : StdMap β) (k : String) : find m k = none ↔ k ∉ keys m := by
  induction m with
  | nil => simp [find, keys]
  | cons e tl ih =>
    rw [find_cons]
    by_cases h : e.1 = k
    · simp [h, keys]
    · have hk : k ≠ e.1 := fun hc => h hc.symm
      simp only [h, if_false, ih, keys, List.map_cons, List.mem_cons, hk, false_or]

theorem contains_iff (m : StdMap β) (k : String) : contains m k = true ↔ k ∈ keys m := by
  unfold contains
  rw [Option.isSome_iff_ne_none, Ne, find_eq_none_iff, not_not]

theorem contains_false_iff (m : StdMap β) (k : String) : contains m k = false ↔ k ∉ keys m := by
  rw [← contains_iff]
  simp

theorem find_filter_of_imp (m : StdMap β) (k : String) (q : String × β → Bool)
    (h : ∀ e ∈ m, e.1 = k → q e = true) : find (List.filter q m) k = find m k := by
  induction m with
  | nil => rfl
  | cons e tl ih =>
    have ih' := ih (fun e he => h e (List.mem_cons_of_mem _ he))
    by_cases hq : q e = true
    · rw [List.filter_cons_of_pos hq, find_cons, find_cons, ih']
    · have hk : e.1 ≠ k := fun hc => hq (h e (List.mem_cons_self _ _) hc)
      rw [List.filter_cons_of_neg hq, find_cons, ih', if_neg hk]

theorem find_filter_of_not (m : StdMap β) (k : String) (q : String × β → Bool)
    (h : ∀ e ∈ m, e.1 = k → q e = false) : find (List.filter q m) k = none := by
  rw [find_eq_none_iff]
  intro hk
  simp only [keys, List.mem_map, List.mem_filter] at hk
  obtain ⟨e, ⟨he, hq⟩, hek⟩ := hk
  rw [h e he hek] at hq
  exact absurd hq (by simp)

theorem find_append (m1 m2 : StdMap β) (k : String) :
    find (m1 ++ m2) k = (find m1 k).or (find m2 k) := by
  induction m1 with
  | nil => simp [find_nil]
  | cons e tl ih =>
    rw [List.cons_append, find_cons, find_cons, ih]
    split <;> simp

theorem find_erase_self (m : StdMap β) (k : String) : find (erase m k) k = none := by
  unfold erase
  apply find_filter_of_not
  intro e _ he
  simp [he]

theorem find_erase_ne (m : StdMap β) (k k' : String) (h : k' ≠ k) :
    find (erase m k) k' = find m k' := by
  unfold erase
  apply find_filter_of_imp
  intro e _ he
  simp [he, h]

theorem insert_of_not_contains (m : StdMap β) (k : String) (v : β) (h : contains m k = false) :
    insert m k v
      = List.filter (fun e => keyLess e.1 k) m ++ (k, v) :: List.filter (fun e => keyLess k e.1) m := by
  simp [insert, h]

theorem find_insert_self (m : StdMap β) (k : String) (v : β) (h : contains m k = false) :
    find (insert m k v) k = some v := by
  rw [insert_of_not_contains m k v h, find_append, find_filter_of_not, find_cons]
  · simp
  · intro e _ he
    rw [he]
    exact keyLess_irrefl k

theorem find_insert_ne (m : StdMap β) (k k' : String) (v : β) (h : k' ≠ k) :
    find (insert m k v) k' = find m k' := by
  by_cases hc : contains m k = true
  · simp [insert, hc]
  · have hc' : contains m k = false := by simpa using hc
    rw [insert_of_not_contains m k v hc', find_append, find_cons, if_neg (Ne.symm h)]
    rcases keyLess_total k' k h with hl | hl
    · rw [find_filter_of_imp m k' _ (by intro e _ he; rw [he]; exact hl),
        find_filter_of_not m k' _ (by intro e _ he; rw [he]; exact keyLess_asymm _ _ hl)]
      cases find m k' <;> rfl
    · rw [find_filter_of_not m k' _ (by intro e _ he; rw [he]; exact keyLess_asymm _ _ hl),
        find_filter_of_imp m k' _ (by intro e _ he; rw [he]; exact hl)]
      rfl

theorem insert_perm (m : StdMap β) (k : String) (v : β) (h : contains m k = false) :
    (insert m k v).Perm ((k, v) :: m) := by
  rw [insert_of_not_contains m k v h]
  have hk : k ∉ keys m := (contains_false_iff m k).1 h
  have hf : List.filter (fun e : String × β => keyLess k e.1) m
      = List.filter (fun e => !(keyLess e.1 k)) m := by
    apply List.filter_congr
    intro e he
    have hne : e.1 ≠ k := by
      intro hc
      exact hk (by rw [← hc]; exact List.mem_map_of_mem _ he)
    rcases keyLess_total e.1 k hne with hl | hl
    · simp [hl, keyLess_asymm _ _ hl]
    · simp [hl, keyLess_asymm _ _ hl]
  rw [hf]
  refine List.perm_middle.trans (List.Perm.cons _ ?_)
  exact List.filter_append_perm _ m

end StdMap
/-! ## Facts about the heap -/

theorem getName_setName_self (heap : List Variable) (v : VarId) (k n : String)
    (h : getName heap v = some k) : getName (setName heap v n) v = some n := by
  unfold getName setName at *
  simp only [List.get?_eq_getElem?, Option.map_eq_some'] at h ⊢
  obtain ⟨x, hx, _⟩ := h
  refine ⟨{ x with name := n }, ?_, rfl⟩
  rw [List.getElem?_modify, hx]
  simp

namespace StdMap

variable {β : Type}

end StdMap
/-! ## The registry invariant is kept -/

theorem pairwise_insert (m : StdMap VarId) (k : String) (v : VarId)
    (hs : List.Pairwise (fun a b : String × VarId => keyLess a.1 b.1 = true) m) :
    List.Pairwise (fun a b : String × VarId => keyLess a.1 b.1 = true)
      (List.filter (fun e => keyLess e.1 k) m ++ (k, v) :: List.filter (fun e => keyLess k e.1) m) := by
  rw [List.pairwise_append]
  refine ⟨hs.filter _, ?_, ?_⟩
  · rw [List.pairwise_cons]
    exact ⟨fun b hb => (List.mem_filter.1 hb).2, hs.filter _⟩
  · intro a ha b hb
    have ha' : keyLess a.1 k = true := (List.mem_filter.1 ha).2
    rcases List.mem_cons.1 hb with hb | hb
    · rw [hb]; exact ha'
    · exact keyLess_trans _ _ _ ha' (List.mem_filter.1 hb).2

theorem getName_lt_length (heap : List Variable) (v : VarId) (k : String)
    (h : getName heap v = some k) : v < heap.length := by
  unfold getName at h
  simp only [List.get?_eq_getElem?, Option.map_eq_some'] at h
  obtain ⟨x, hx, _⟩ := h
  exact (List.getElem?_eq_some_iff.1 hx).1

theorem wellFormed_add (heap : List Variable) (vars : StdMap VarId) (x : Variable)
    (hwf : WellFormed heap vars) (hfree : vars.contains x.name = false) :
    WellFormed (heap ++ [x]) (vars.insert x.name heap.length) := by
  obtain ⟨hs, hn, hd⟩ := hwf
  rw [StdMap.insert_of_not_contains _ _ _ hfree]
  refine ⟨pairwise_insert vars x.name heap.length hs, ?_, ?_⟩
  · intro e he
    have hcase : e = (x.name, heap.length) ∨ e ∈ vars := by
      rcases List.mem_append.1 he with h | h
      · exact Or.inr (List.mem_filter.1 h).1
      · rcases List.mem_cons.1 h with h | h
        · exact Or.inl h
        · exact Or.inr (List.mem_filter.1 h).1
    rcases hcase with h | h
    · rw [h]
      simp [getName]
    · have hlt := getName_lt_length heap e.2 e.1 (hn e h)
      have := hn e h
      unfold getName at this ⊢
      simp only [List.get?_eq_getElem?] at this ⊢
      rw [List.getElem?_append_left hlt]
      exact this
  · have hp := (StdMap.insert_perm vars x.name heap.length hfree).map Prod.snd
    rw [StdMap.insert_of_not_contains _ _ _ hfree] at hp
    rw [hp.nodup_iff, List.map_cons, List.nodup_cons]
    refine ⟨?_, hd⟩
    intro hc
    obtain ⟨e, he, hev⟩ := List.mem_map.1 hc
    have hlt := getName_lt_length heap e.2 e.1 (hn e he)
    rw [hev] at hlt
    exact absurd hlt (Nat.lt_irrefl _)

theorem exists_free_newVarName (m : StdMap VarId) :
    ∃ k, k ≤ m.length ∧ m.contains (newVarName k) = false := by
  by_contra hcon
  push_neg at hcon
  have hsub : (List.range (m.length + 1)).map newVarName ⊆ m.keys := by
    intro x hx
    obtain ⟨k, hk, rfl⟩ := List.mem_map.1 hx
    have hk' : k ≤ m.length := by
      have := List.mem_range.1 hk
      omega
    have hc := hcon k hk'
    exact (StdMap.contains_iff m _).1 (by simpa using hc)
  have hnd : ((List.range (m.length + 1)).map newVarName).Nodup :=
    (List.nodup_range _).map (fun a b h => newVarName_injective a b h)
  have hle := (hnd.subperm hsub).length_le
  simp [StdMap.keys] at hle

theorem findFreeNum_eq (vars : StdMap VarId) (k : Nat) (hk : k < 2 ^ 32)
    (hfree : vars.contains (newVarName k) = false) :
    ∀ (fuel num : Nat), num ≤ k →
      (∀ j, num ≤ j → j < k → vars.contains (newVarName j) = true) → k - num < fuel →
      findFreeNum vars fuel num = some k := by
  intro fuel
  induction fuel with
  | zero => intro num _ _ h; omega
  | succ f ih =>
    intro num hle hused hfuel
    unfold findFreeNum
    by_cases hnk : num = k
    · subst hnk
      simp [hfree]
    · have hlt : num < k := by omega
      rw [if_pos (hused num (le_refl _) hlt)]
      have hmod : (num + 1) % 2 ^ 32 = num + 1 := Nat.mod_eq_of_lt (by omega)
      rw [hmod]
      exact ih (num + 1) (by omega) (fun j hj hjk => hused j (by omega) hjk) (by omega)

/-- What lines 257-266 and 270-271 would add, were the colour `color` drawn: on
a registry of fewer than 2^32 entries the loop returns the least `k` whose
name `"new" + k` is free, and the emplace adds exactly that entry, with the
address 0x20000000 and the type U8, leaving every other entry and every
existing variable as it is. -/
theorem emplaceNewVariable_adds_fresh (g : Gui) (color : Nat)
    (hsize : g.vars.length < 2 ^ 32) :
    ∃ k, k ≤ g.vars.length ∧
      (∀ j, j < k → g.vars.contains (newVarName j) = true) ∧
      g.vars.contains (newVarName k) = false ∧
      (∀ fuel, g.vars.length < fuel → findFreeNum g.vars fuel 0 = some k) ∧
      (emplaceNewVariable (newVarName k) color g).vars.find (newVarName k)
        = some g.heap.length ∧
      (emplaceNewVariable (newVarName k) color g).heap.get? g.heap.length
        = some ⟨newVarName k, 0x20000000, VarType.U8, color⟩ ∧
      (∀ key, key ≠ newVarName k →
        (emplaceNewVariable (newVarName k) color g).vars.find key = g.vars.find key) ∧
      (∀ i, i < g.heap.length →
        (emplaceNewVariable (newVarName k) color g).heap.get? i = g.heap.get? i) ∧
      (emplaceNewVariable (newVarName k) color g).vars.keys.Perm
        (newVarName k :: g.vars.keys) ∧
      (emplaceNewVariable (newVarName k) color g).vars.length = g.vars.length + 1 ∧
      (WellFormed g.heap g.vars →
        WellFormed (emplaceNewVariable (newVarName k) color g).heap
          (emplaceNewVariable (newVarName k) color g).vars) := by
  classical
  have hex : ∃ k, g.vars.contains (newVarName k) = false := by
    obtain ⟨k, _, hk⟩ := exists_free_newVarName g.vars
    exact ⟨k, hk⟩
  obtain ⟨k0, hk0le, hk0⟩ := exists_free_newVarName g.vars
  have hfree : g.vars.contains (newVarName (Nat.find hex)) = false := Nat.find_spec hex
  have hmin : ∀ j, j < Nat.find hex → g.vars.contains (newVarName j) = true := by
    intro j hj
    have := Nat.find_min hex hj
    simpa using this
  have hle : Nat.find hex ≤ g.vars.length := le_trans (Nat.find_min' hex hk0) hk0le
  have hperm := StdMap.insert_perm g.vars (newVarName (Nat.find hex)) g.heap.length hfree
  have hkeys : (g.vars.insert (newVarName (Nat.find hex)) g.heap.length).keys.Perm
      (newVarName (Nat.find hex) :: g.vars.keys) := by
    simpa [StdMap.keys] using hperm.map Prod.fst
  refine ⟨Nat.find hex, hle, hmin, hfree, ?_, ?_, ?_, ?_, ?_, hkeys, ?_, ?_⟩
  · intro fuel hfuel
    exact findFreeNum_eq g.vars (Nat.find hex) (by omega) hfree fuel 0 (Nat.zero_le _)
      (fun j _ hj => hmin j hj) (by omega)
  · exact StdMap.find_insert_self _ _ _ hfree
  · simp [emplaceNewVariable]
  · intro key hkey
    exact StdMap.find_insert_ne _ _ _ _ hkey
  · intro i hi
    simp [emplaceNewVariable, List.getElem?_append_left hi]
  · simpa [emplaceNewVariable] using hperm.length_eq
  · intro hwf
    exact wellFormed_add g.heap g.vars
      ⟨newVarName (Nat.find hex), 0x20000000, VarType.U8, color⟩ hwf hfree

/-- C9 (the code departs from the claim): the bound `UINT32_MAX` of the colour
distribution is -1 as an `int`, so the distribution is built on the empty
range `[0, -1]` and the draw has no result; a press of "Add variable" adds
nothing, whatever the registry, although the loop has found the free name. -/
theorem drawAddVariableButton_never_adds (g : Gui) (random : Nat) :
    toInt32 UINT32_MAX = -1 ∧
    uniformIntDistribution 0 (toInt32 UINT32_MAX) random = none ∧
    (∀ fuel, drawAddVariableButton fuel true random g = none) ∧
    (g.vars.length < 2 ^ 32 →
      ∃ k, ∀ fuel, g.vars.length < fuel → findFreeNum g.vars fuel 0 = some k) := by
  have h1 : toInt32 UINT32_MAX = -1 := by decide
  have h2 : uniformIntDistribution 0 (toInt32 UINT32_MAX) random = none := by
    simp [uniformIntDistribution, h1]
  refine ⟨h1, h2, ?_, ?_⟩
  · intro fuel
    unfold drawAddVariableButton
    rw [if_pos rfl, h2]
    cases findFreeNum g.vars fuel 0 <;> rfl
  · intro hsize
    obtain ⟨k, _, _, _, hk, _⟩ := emplaceNewVariable_adds_fresh g 0 hsize
    exact ⟨k, hk⟩

/-- On the empty registry the loop stops at once with the name `new0`, and the
press still adds nothing. -/
theorem drawAddVariableButton_empty_registry :
    findFreeNum [] 1 0 = some 0 ∧
    drawAddVariableButton 1 true 12345 ⟨[], [], ⟨[], state.STOP⟩, state.STOP⟩ = none ∧
    drawAddVariableButton 1 false 12345 ⟨[], [], ⟨[], state.STOP⟩, state.STOP⟩
      = some ⟨[], [], ⟨[], state.STOP⟩, state.STOP⟩ := by
  decide
/-! ## The loop of `drawVarTable` -/

/-- C2 (the code departs from the claim): renaming `a` to the name of the
other variable `b` removes `a` from the registry and changes its name field;
the row of the loop of `drawVarTable` is left on a destroyed node. -/
theorem renameVariable_onto_existing_name :
    renameVariable twoVarsHeap [("a", 0), ("b", 1)] 0 "b"
      = some ([⟨"b", 0x20000000, VarType.U8, 0⟩, ⟨"b", 0x20000004, VarType.U32, 0⟩],
          [("b", 1)]) ∧
    drawVarTableRow (renameUi "a" "b") "a" ⟨twoVarsHeap, [("a", 0), ("b", 1)], ""⟩ = none := by
  decide

/-- Renaming onto a name that another entry uses drops the renamed entry from
the registry, whatever the registry. -/
theorem renameVariable_conflict (heap : List Variable) (vars : StdMap VarId) (v : VarId)
    (old other : String) (hname : getName heap v = some old)
    (hfind : vars.find old = some v) (hne : other ≠ old)
    (hused : vars.contains other = true) :
    renameVariable heap vars v other = some (setName heap v other, vars.erase old) ∧
      (vars.erase old).find old = none ∧
      getName (setName heap v other) v = some other := by
  have hc : StdMap.contains (StdMap.erase vars old) other = true := by
    unfold StdMap.contains at hused ⊢
    rw [StdMap.find_erase_ne _ _ _ hne]
    exact hused
  refine ⟨?_, StdMap.find_erase_self _ _, getName_setName_self heap v old other hname⟩
  simp [renameVariable, hname, hfind, StdMap.insert, hc]
end STMViewer
